import Mathlib

/-!
Verification of the kuduraft memory allocation framework
(`src/kudu/util/memory/memory.h`): the quota/mediator arithmetic,
the guarantee and soft-quota-bypass decorators, the buffer handle, and
the public `BufferAllocator` entry points, embedded shallowly with
`size_t` modelled as `Nat` restricted to the 64-bit range and explicit
wraparound where the C++ arithmetic can wrap.
-/

namespace Kudu

/-- `2^64`: one past the largest `size_t` value on the 64-bit platforms the
code targets. -/
def szW : Nat := 2 ^ 64

/-- `std::numeric_limits<size_t>::max()`. -/
def szMax : Nat := szW - 1

/-- `size_t` subtraction `a - b` with wraparound, assuming `a, b < 2^64`. -/
def szSub (a b : Nat) : Nat := (a + szW - b) % szW

/-- `size_t` addition `a + b` with wraparound. -/
def szAdd (a b : Nat) : Nat := (a + b) % szW

/-- Severity of a glog diagnostic emitted by the code. Only `fatal`
(`LOG(FATAL)` / failed `CHECK`) aborts the process. -/
inductive LogSeverity
  | warning
  | error
  | fatal
deriving DecidableEq

/-- State of a `Quota<thread_safe>` whose `GetQuotaInternal()` is supplied by
`StaticQuota` (memory.h lines 350-429): the running `usage_`, the `enforced_`
flag, and the static quota value `quota_` returned by `GetQuotaInternal()`. -/
structure QuotaState where
  usage_ : Nat
  enforced_ : Bool
  quota_ : Nat
deriving DecidableEq

/-- `size_t` fields hold values below `2^64`. -/
def QuotaState.WF (s : QuotaState) : Prop := s.usage_ < szW ∧ s.quota_ < szW

instance (s : QuotaState) : Decidable s.WF := by
  unfold QuotaState.WF; infer_instance

/-- `Quota<thread_safe>::Allocate` (memory.h lines 937-968): decides the
granted amount, adds it to `usage_`, and returns the pair (grant, new state).
The guard `usage_ > quota || minimal > quota - usage_` and the advisory-mode
overflow check `minimal <= max - usage_` use `size_t` arithmetic. -/
def Quota.Allocate (s : QuotaState) (requested minimal : Nat) : Nat × QuotaState :=
  let quota := s.quota_
  let allocation :=
    if s.usage_ > quota ∨ minimal > szSub quota s.usage_ then
      if s.enforced_ = false ∧ minimal ≤ szSub szMax s.usage_ then minimal else 0
    else
      min requested (szSub quota s.usage_)
  (allocation, { s with usage_ := szAdd s.usage_ allocation })

/-- `Quota<thread_safe>::Free` (memory.h lines 970-981): subtracts `amount`
from `usage_` with `size_t` wraparound, then emits a non-fatal `LOG(ERROR)`
diagnostic (in every build) when the resulting `usage_` lands in the top
`2^28` values of the `size_t` range. -/
def Quota.Free (s : QuotaState) (amount : Nat) : QuotaState × Option LogSeverity :=
  let usage' := szSub s.usage_ amount
  ({ s with usage_ := usage' },
    if usage' > szMax - 2 ^ 28 then some LogSeverity.error else none)

/-- `Quota<thread_safe>::Available` (memory.h lines 368-372). -/
def Quota.Available (s : QuotaState) : Nat :=
  let quota := s.quota_
  if s.usage_ ≥ quota then 0 else quota - s.usage_

/-- `Quota<thread_safe>::GetUsage` (memory.h lines 989-993). -/
def Quota.GetUsage (s : QuotaState) : Nat := s.usage_

lemma szSub_eq_sub {a b : Nat} (hb : b ≤ a) (ha : a < szW) : szSub a b = a - b := by
  unfold szSub szW at *
  omega

lemma szAdd_eq_add {a b : Nat} (h : a + b < szW) : szAdd a b = a + b := by
  unfold szAdd szW at *
  omega

lemma szMax_sub {a : Nat} (h : a < szW) : szSub szMax a = szMax - a := by
  apply szSub_eq_sub
  · unfold szMax szW at *; omega
  · unfold szMax szW; omega

/-- When the request fits inside the remaining quota, `Quota::Allocate`
grants `min requested (quota - usage)` and adds it to the usage. -/
lemma quota_allocate_in_quota (s : QuotaState) (r m : Nat) (hq : s.quota_ < szW)
    (h1 : s.usage_ ≤ s.quota_) (h2 : m ≤ s.quota_ - s.usage_) :
    Quota.Allocate s r m
      = (min r (s.quota_ - s.usage_),
         ⟨s.usage_ + min r (s.quota_ - s.usage_), s.enforced_, s.quota_⟩) := by
  have hsub : szSub s.quota_ s.usage_ = s.quota_ - s.usage_ := szSub_eq_sub h1 hq
  have hguard : ¬ (s.usage_ > s.quota_ ∨ m > s.quota_ - s.usage_) := by omega
  have hmin : min r (s.quota_ - s.usage_) ≤ s.quota_ - s.usage_ := min_le_right _ _
  simp only [Quota.Allocate, hsub]
  rw [if_neg hguard, szAdd_eq_add (by unfold szW at *; omega)]

/-- When the state is out of quota and the quota is enforced,
`Quota::Allocate` denies and leaves the state unchanged. -/
lemma quota_allocate_denied (s : QuotaState) (r m : Nat)
    (hu : s.usage_ < szW) (hq : s.quota_ < szW) (henf : s.enforced_ = true)
    (hden : s.quota_ < s.usage_ ∨ s.quota_ - s.usage_ < m) :
    Quota.Allocate s r m = (0, s) := by
  have hguard : s.usage_ > s.quota_ ∨ m > szSub s.quota_ s.usage_ := by
    rcases hden with h | h
    · exact Or.inl h
    · rcases Nat.lt_or_ge s.quota_ s.usage_ with h2 | h2
      · exact Or.inl h2
      · exact Or.inr (by rw [szSub_eq_sub h2 hq]; exact h)
  simp only [Quota.Allocate]
  rw [if_pos hguard, if_neg (by simp [henf]), szAdd_eq_add (by omega), Nat.add_zero]

/-- When the state is out of quota, the quota is advisory and
`usage + minimal` does not overflow, `Quota::Allocate` grants exactly the
minimal amount. -/
lemma quota_allocate_advisory_ooq (s : QuotaState) (r m : Nat)
    (hu : s.usage_ < szW) (hq : s.quota_ < szW) (hadv : s.enforced_ = false)
    (hden : s.quota_ < s.usage_ ∨ s.quota_ - s.usage_ < m)
    (hov : s.usage_ + m ≤ szMax) :
    Quota.Allocate s r m = (m, ⟨s.usage_ + m, s.enforced_, s.quota_⟩) := by
  have hguard : s.usage_ > s.quota_ ∨ m > szSub s.quota_ s.usage_ := by
    rcases hden with h | h
    · exact Or.inl h
    · rcases Nat.lt_or_ge s.quota_ s.usage_ with h2 | h2
      · exact Or.inl h2
      · exact Or.inr (by rw [szSub_eq_sub h2 hq]; exact h)
  have hmax : szSub szMax s.usage_ = szMax - s.usage_ := szMax_sub hu
  simp only [Quota.Allocate, hadv]
  rw [if_pos hguard,
    if_pos (⟨trivial, by rw [hmax]; unfold szMax szW at *; omega⟩ :
      True ∧ m ≤ szSub szMax s.usage_),
    szAdd_eq_add (by unfold szMax szW at *; omega)]

/-- When the freed amount does not exceed the usage, `Quota::Free` performs
an exact subtraction. -/
lemma quota_free_no_underflow (s : QuotaState) (a : Nat)
    (hu : s.usage_ < szW) (ha : a ≤ s.usage_) :
    (Quota.Free s a).1 = ⟨s.usage_ - a, s.enforced_, s.quota_⟩ := by
  simp only [Quota.Free]
  rw [szSub_eq_sub ha hu]

/-- C1: in enforced mode, for every state with `usage <= limit` and every
request with `minimal <= requested`, if `minimal <= limit - usage` then
`Allocate(requested, minimal)` returns `min(requested, limit - usage)` and adds
exactly that amount to `usage` (so `usage <= limit` still holds afterwards);
if `usage > limit` or `minimal > limit - usage`, `Allocate` returns `0` and
leaves `usage` unchanged. -/
theorem quota_allocate_enforced_correct (s : QuotaState) (requested minimal : Nat)
    (hwf : s.WF) (henf : s.enforced_ = true) (hmr : minimal ≤ requested) :
    (s.usage_ ≤ s.quota_ → minimal ≤ s.quota_ - s.usage_ →
      (Quota.Allocate s requested minimal).1 = min requested (s.quota_ - s.usage_) ∧
      (Quota.Allocate s requested minimal).2.usage_
        = s.usage_ + min requested (s.quota_ - s.usage_) ∧
      (Quota.Allocate s requested minimal).2.usage_ ≤ s.quota_) ∧
    ((s.quota_ < s.usage_ ∨ s.quota_ - s.usage_ < minimal) →
      (Quota.Allocate s requested minimal).1 = 0 ∧
      (Quota.Allocate s requested minimal).2.usage_ = s.usage_) := by
  obtain ⟨hu, hq⟩ := hwf
  constructor
  · intro hle hmin
    rw [quota_allocate_in_quota s requested minimal hq hle hmin]
    have h := min_le_right requested (s.quota_ - s.usage_)
    exact ⟨rfl, rfl, by simp only []; omega⟩
  · intro hden
    rw [quota_allocate_denied s requested minimal hu hq henf hden]
    exact ⟨rfl, rfl⟩

/-- Witness for C1 at state `usage = 5`, `limit = 10`, request `(7, 3)`:
the grant is `min 7 5 = 5` and usage becomes `10 <= 10`. -/
theorem quota_allocate_enforced_correct_witness :
    (Quota.Allocate ⟨5, true, 10⟩ 7 3).1 = 5 ∧
    (Quota.Allocate ⟨5, true, 10⟩ 7 3).2.usage_ = 10 ∧
    (Quota.Allocate ⟨5, true, 10⟩ 7 3).2.usage_ ≤ 10 := by
  have h := (quota_allocate_enforced_correct ⟨5, true, 10⟩ 7 3 (by decide) rfl
      (by decide)).1 (by decide) (by decide)
  refine ⟨?_, ?_, h.2.2⟩
  · rw [h.1]; decide
  · rw [h.2.1]; decide

/-- C2: in advisory (non-enforced) mode, in every out-of-quota state
(`usage > limit`, or `minimal > limit - usage`), `Allocate(requested, minimal)`
grants exactly `minimal` whenever `usage + minimal` does not overflow the
`size_t` counter, and whenever `usage >= limit`, `Available()` returns `0`. -/
theorem quota_allocate_advisory_minimal_grant (s : QuotaState) (requested minimal : Nat)
    (hwf : s.WF) (hadv : s.enforced_ = false)
    (hooq : s.quota_ < s.usage_ ∨ s.quota_ - s.usage_ < minimal)
    (hov : s.usage_ + minimal ≤ szMax) :
    (Quota.Allocate s requested minimal).1 = minimal ∧
    (Quota.Allocate s requested minimal).2.usage_ = s.usage_ + minimal ∧
    (s.quota_ ≤ s.usage_ → Quota.Available s = 0) := by
  obtain ⟨hu, hq⟩ := hwf
  rw [quota_allocate_advisory_ooq s requested minimal hu hq hadv hooq hov]
  refine ⟨rfl, rfl, fun hge => ?_⟩
  simp only [Quota.Available]
  rw [if_pos hge]

/-- Witness for C2, matching the spec example: limit `10`, advisory, usage
already `10`; `BestEffortAllocate(100, 5)` grants exactly `5`, and
`Available()` reads `0`. -/
theorem quota_allocate_advisory_minimal_grant_witness :
    (Quota.Allocate ⟨10, false, 10⟩ 100 5).1 = 5 ∧
    (Quota.Allocate ⟨10, false, 10⟩ 100 5).2.usage_ = 15 ∧
    Quota.Available ⟨10, false, 10⟩ = 0 := by
  have h := quota_allocate_advisory_minimal_grant ⟨10, false, 10⟩ 100 5 (by decide) rfl
      (by decide) (by decide)
  exact ⟨h.1, h.2.1, h.2.2 (by decide)⟩

/-- C3: for an enforced quota with limit `L >= 1` starting at usage `0`:
`Allocate(L)` grants exactly `L` (usage becomes `L`); a subsequent
`Allocate(1)` is denied (returns `0`, usage unchanged); `Free(L)` brings usage
back to `0`; then `Allocate(1)` grants `1` again. -/
theorem quota_enforced_alloc_free_cycle (L : Nat) (h1 : 1 ≤ L) (hW : L < szW) :
    Quota.Allocate ⟨0, true, L⟩ L L = (L, ⟨L, true, L⟩) ∧
    Quota.Allocate ⟨L, true, L⟩ 1 1 = (0, ⟨L, true, L⟩) ∧
    (Quota.Free ⟨L, true, L⟩ L).1 = ⟨0, true, L⟩ ∧
    (Quota.Allocate ⟨0, true, L⟩ 1 1).1 = 1 := by
  refine ⟨?_, ?_, ?_, ?_⟩
  · rw [quota_allocate_in_quota ⟨0, true, L⟩ L L hW (by simp) (by simp)]
    simp
  · rw [quota_allocate_denied ⟨L, true, L⟩ 1 1 hW hW rfl (by right; simp)]
  · rw [quota_free_no_underflow ⟨L, true, L⟩ L hW (le_refl L)]
    simp
  · rw [quota_allocate_in_quota ⟨0, true, L⟩ 1 1 hW (by simp) (by simpa using h1)]
    simp only [Nat.sub_zero]
    exact Nat.min_eq_left h1

/-- Witness for C3 at `L = 100`: allocate(100) grants 100 (usage 100),
allocate(1) is denied, free(100) returns usage to 0, allocate(1) grants 1. -/
theorem quota_enforced_alloc_free_cycle_witness :
    Quota.Allocate ⟨0, true, 100⟩ 100 100 = (100, ⟨100, true, 100⟩) ∧
    Quota.Allocate ⟨100, true, 100⟩ 1 1 = (0, ⟨100, true, 100⟩) ∧
    (Quota.Free ⟨100, true, 100⟩ 100).1 = ⟨0, true, 100⟩ ∧
    (Quota.Allocate ⟨0, true, 100⟩ 1 1).1 = 1 :=
  quota_enforced_alloc_free_cycle 100 (by decide) (by decide)

/-- Claim C4 counterexample: the claim says an underflow of `usage` past zero
by more than the ~256MB (`2^28`) slack is surfaced as a fatal assertion rather
than a silent wrap. At `usage = 0`, `Free(2^30)` underflows by `2^30 > 2^28`,
yet the code emits no diagnostic at all (the `usage_ > SIZE_MAX - 2^28` test
does not even fire, because the wrapped value `2^64 - 2^30` is more than
`2^28` below `SIZE_MAX`), and the usage counter silently wraps. -/
theorem quota_free_underflow_not_fatal_counterexample :
    (0 : Nat) + 2 ^ 28 < 2 ^ 30 ∧
    (Quota.Free ⟨0, true, 10⟩ (2 ^ 30)).2 ≠ some LogSeverity.fatal ∧
    (Quota.Free ⟨0, true, 10⟩ (2 ^ 30)).2 = none ∧
    (Quota.Free ⟨0, true, 10⟩ (2 ^ 30)).1.usage_ = 2 ^ 64 - 2 ^ 30 := by
  refine ⟨by norm_num, ?_, ?_, ?_⟩ <;> decide

/-- Claim C4 amended: `Quota::Free` subtracts with `size_t` wraparound and
never asserts fatally (in any build); a non-fatal `LOG(ERROR)` diagnostic is
emitted exactly when the wrapped usage lands above `SIZE_MAX - 2^28`; in
particular, an underflow past zero is reported iff its magnitude is at most
`2^28`, and larger underflows wrap silently. -/
theorem quota_free_wraparound_logging (s : QuotaState) (amount : Nat)
    (hwf : s.WF) (ha : amount < szW) :
    (Quota.Free s amount).1.usage_ = (s.usage_ + szW - amount) % szW ∧
    ((Quota.Free s amount).2 = some LogSeverity.error ↔
      szMax - 2 ^ 28 < (s.usage_ + szW - amount) % szW) ∧
    (Quota.Free s amount).2 ≠ some LogSeverity.fatal ∧
    (s.usage_ < amount →
      ((Quota.Free s amount).2 = some LogSeverity.error ↔
        amount - s.usage_ ≤ 2 ^ 28)) := by
  obtain ⟨hu, hq⟩ := hwf
  simp only [Quota.Free, szSub]
  refine ⟨by trivial, ?_, ?_, ?_⟩
  · split_ifs with h
    · exact iff_of_true rfl h
    · exact iff_of_false (by simp) h
  · split_ifs <;> simp
  · intro hlt
    split_ifs with h
    · refine iff_of_true rfl ?_
      unfold szMax szW at h
      unfold szW at hu ha
      omega
    · refine iff_of_false (by simp) ?_
      unfold szMax szW at h
      unfold szW at hu ha
      omega

/-- Witness for the amended C4 at `usage = 0`, `Free(7)`: an underflow by
`7 <= 2^28`, which wraps and is reported with a non-fatal `LOG(ERROR)`. -/
theorem quota_free_wraparound_logging_witness :
    (Quota.Free ⟨0, true, 10⟩ 7).1.usage_ = (0 + szW - 7) % szW ∧
    (Quota.Free ⟨0, true, 10⟩ 7).2 ≠ some LogSeverity.fatal ∧
    (Quota.Free ⟨0, true, 10⟩ 7).2 = some LogSeverity.error := by
  have h := quota_free_wraparound_logging ⟨0, true, 10⟩ 7 (by decide) (by decide)
  exact ⟨h.1, h.2.2.1, (h.2.2.2 (by decide)).2 (by decide)⟩

/-- A physical delegate allocator abstracted to the size it grants:
`d requested minimal = some size` models a successful inner allocation of
`size` bytes, `none` a denial. -/
def Delegate : Type := Nat → Nat → Option Nat

/-- The `BufferAllocator` contract (memory.h lines 114-126): under the
precondition `minimal <= requested`, a successful grant lies in
`[minimal, requested]`, and a request with `minimal == 0` always succeeds. -/
structure ContractOk (d : Delegate) : Prop where
  grant_bounds : ∀ r m g, m ≤ r → d r m = some g → m ≤ g ∧ g ≤ r
  zero_minimal : ∀ r, ∃ g, d r 0 = some g

/-- Modelled from the spec: the heap leaf node (spec 4.1) grants the full
requested amount (`HeapBufferAllocator::AllocateInternal` lives in memory.cc,
which is not among the sources); physical OOM is environmental and modelled
as absent here. -/
def heapGrant : Delegate := fun r _ => some r

lemma heapGrant_contract : ContractOk heapGrant := by
  constructor
  · intro r m g hmr hg
    simp only [heapGrant, Option.some.injEq] at hg
    omega
  · intro r
    exact ⟨r, rfl⟩

/-- Modelled from the spec: `MediatingBufferAllocator::AllocateInternal` lives
in memory.cc, which is not among the sources. Per spec 4.3, the mediator is
asked for an approved size with the caller's original `requested`/`minimal`; a
denial by the mediator denies the whole request, otherwise the inner node is
asked to allocate the approved amount. Per the `Mediator` contract in memory.h
(lines 333-337) a returned zero denies only when `minimal` is non-zero, so the
denial test is `granted < minimal`, and the caller's `minimal` is passed
through to the inner node so that the contract corner cases (spec 3 and 8:
requests with `minimal == 0` always succeed) hold across the chain. Per spec
7/9 the mediator's usage update is committed before the physical allocation
and is not rolled back on inner failure. -/
def MediatingBufferAllocator.AllocateInternal (d : Delegate) (q : QuotaState)
    (requested minimal : Nat) : Option Nat × QuotaState :=
  let res := Quota.Allocate q requested minimal
  if res.1 < minimal then (none, res.2)
  else (d res.1 minimal, res.2)

/-- The grant of `Quota::Allocate` never exceeds `requested` (given the
`minimal <= requested` precondition). -/
lemma quota_allocate_le (s : QuotaState) (r m : Nat) (hmr : m ≤ r) :
    (Quota.Allocate s r m).1 ≤ r := by
  simp only [Quota.Allocate]
  split_ifs with h1 h2
  · exact hmr
  · exact Nat.zero_le r
  · exact min_le_left _ _

/-- Claim C5: through a quota-mediated node, allocation with `minimal == 0`
(so both `allocate(0)` and `best_effort_allocate(r, 0)`) always succeeds with
a block, for every quota state — including exhausted quotas and quotas whose
limit sits below the current usage — provided the inner delegate meets the
allocation contract. -/
theorem mediated_allocate_zero_minimal_succeeds (d : Delegate) (hd : ContractOk d)
    (q : QuotaState) (requested : Nat) :
    ∃ g, (MediatingBufferAllocator.AllocateInternal d q requested 0).1 = some g := by
  simp only [MediatingBufferAllocator.AllocateInternal]
  rw [if_neg (by omega)]
  exact hd.zero_minimal _

/-- Witness for C5: with the heap delegate and an exhausted enforced quota
(usage 10 of limit 10), `best_effort_allocate(100, 0)` still succeeds. -/
theorem mediated_allocate_zero_minimal_succeeds_witness :
    ∃ g, (MediatingBufferAllocator.AllocateInternal heapGrant ⟨10, true, 10⟩ 100 0).1
      = some g :=
  mediated_allocate_zero_minimal_succeeds heapGrant heapGrant_contract ⟨10, true, 10⟩ 100

/-- State of a `GuaranteeMemory` (memory.h lines 893-933): the state of the
inner `MemoryLimit`'s enforced `StaticQuota` plus the fixed guarantee. -/
structure GuaranteeMemoryState where
  limitQuota : QuotaState
  memory_guarantee_ : Nat
deriving DecidableEq

/-- The state built by the `GuaranteeMemory(memory_quota, delegate)`
constructor (memory.h lines 896-897): an enforced static quota of
`memory_quota` with usage `0`, and `memory_guarantee_ = memory_quota`. -/
def GuaranteeMemory.init (G : Nat) : GuaranteeMemoryState := ⟨⟨0, true, G⟩, G⟩

/-- `GuaranteeMemory::Available` (memory.h lines 899-901):
`memory_guarantee_ - limit_.GetUsage()` in `size_t` arithmetic. -/
def GuaranteeMemory.Available (s : GuaranteeMemoryState) : Nat :=
  szSub s.memory_guarantee_ (Quota.GetUsage s.limitQuota)

/-- `GuaranteeMemory::AllocateInternal` (memory.h lines 904-913): denies when
`requested > Available()`, otherwise forwards `allocate(requested, requested)`
to the inner `MemoryLimit` (memory.h lines 522-527, a passthrough to its
mediating allocator over the construction delegate); `minimal` is ignored. -/
def GuaranteeMemory.AllocateInternal (d : Delegate) (s : GuaranteeMemoryState)
    (requested minimal : Nat) : Option Nat × GuaranteeMemoryState :=
  if requested > GuaranteeMemory.Available s then (none, s)
  else
    let res := MediatingBufferAllocator.AllocateInternal d s.limitQuota requested requested
    (res.1, ⟨res.2, s.memory_guarantee_⟩)

/-- Claim C6: the guarantee decorator denies outright whenever
`requested > Available()`, regardless of the delegate; every successful
allocation through it has size exactly `requested` (it forwards
`allocate(requested, requested)`, so no partial grants surface); and from a
fresh `GuaranteeMemory(G)`, `allocate(G)` succeeds with size `G`, after which
`Available()` reads `0` and `allocate(1)` is denied. -/
theorem guarantee_memory_exact_grants (G : Nat) (h1 : 1 ≤ G) (hW : G < szW) :
    (∀ (d : Delegate) (s : GuaranteeMemoryState) (r m : Nat),
      GuaranteeMemory.Available s < r →
      GuaranteeMemory.AllocateInternal d s r m = (none, s)) ∧
    (∀ (d : Delegate), ContractOk d → ∀ (s : GuaranteeMemoryState) (r m g : Nat),
      (GuaranteeMemory.AllocateInternal d s r m).1 = some g → g = r) ∧
    ((GuaranteeMemory.AllocateInternal heapGrant (GuaranteeMemory.init G) G G).1
        = some G ∧
      GuaranteeMemory.Available
        (GuaranteeMemory.AllocateInternal heapGrant (GuaranteeMemory.init G) G G).2
        = 0 ∧
      (GuaranteeMemory.AllocateInternal heapGrant
        (GuaranteeMemory.AllocateInternal heapGrant (GuaranteeMemory.init G) G G).2
        1 1).1 = none) := by
  refine ⟨?_, ?_, ?_⟩
  · intro d s r m h
    simp only [GuaranteeMemory.AllocateInternal]
    rw [if_pos h]
  · intro d hd s r m g hsome
    simp only [GuaranteeMemory.AllocateInternal] at hsome
    by_cases hav : r > GuaranteeMemory.Available s
    · rw [if_pos hav] at hsome
      simp at hsome
    · rw [if_neg hav] at hsome
      simp only [MediatingBufferAllocator.AllocateInternal] at hsome
      by_cases hden : (Quota.Allocate s.limitQuota r r).1 < r
      · rw [if_pos hden] at hsome
        simp at hsome
      · rw [if_neg hden] at hsome
        have hle := quota_allocate_le s.limitQuota r r (le_refl r)
        have heq : (Quota.Allocate s.limitQuota r r).1 = r := by omega
        rw [heq] at hsome
        have hb := hd.grant_bounds r r g (le_refl r) hsome
        omega
  · have havail : GuaranteeMemory.Available (GuaranteeMemory.init G) = G := by
      simp only [GuaranteeMemory.Available, GuaranteeMemory.init, Quota.GetUsage]
      rw [szSub_eq_sub (Nat.zero_le G) hW]
      omega
    have hquota : Quota.Allocate ⟨0, true, G⟩ G G = (G, ⟨G, true, G⟩) := by
      rw [quota_allocate_in_quota ⟨0, true, G⟩ G G hW (by simp) (by simp)]
      simp
    have hstep : GuaranteeMemory.AllocateInternal heapGrant (GuaranteeMemory.init G) G G
        = (some G, ⟨⟨G, true, G⟩, G⟩) := by
      simp only [GuaranteeMemory.AllocateInternal, havail]
      rw [if_neg (lt_irrefl G)]
      simp only [GuaranteeMemory.init, MediatingBufferAllocator.AllocateInternal, hquota]
      rw [if_neg (lt_irrefl G)]
      rfl
    have havail2 : GuaranteeMemory.Available (⟨⟨G, true, G⟩, G⟩ : GuaranteeMemoryState)
        = 0 := by
      simp only [GuaranteeMemory.Available, Quota.GetUsage]
      rw [szSub_eq_sub (le_refl G) hW]
      omega
    refine ⟨?_, ?_, ?_⟩
    · rw [hstep]
    · rw [hstep]
      exact havail2
    · rw [hstep]
      simp [GuaranteeMemory.AllocateInternal, havail2]

/-- Witness for C6 at `G = 100`, matching the spec example: `allocate(100)`
succeeds in full, `Available()` then reads `0`, `allocate(1)` is denied. -/
theorem guarantee_memory_exact_grants_witness :
    (GuaranteeMemory.AllocateInternal heapGrant (GuaranteeMemory.init 100) 100 100).1
      = some 100 ∧
    GuaranteeMemory.Available
      (GuaranteeMemory.AllocateInternal heapGrant (GuaranteeMemory.init 100) 100 100).2
      = 0 ∧
    (GuaranteeMemory.AllocateInternal heapGrant
      (GuaranteeMemory.AllocateInternal heapGrant (GuaranteeMemory.init 100) 100 100).2
      1 1).1 = none :=
  (guarantee_memory_exact_grants 100 (by decide) (by decide)).2.2

/-- State of a `SoftQuotaBypassingBufferAllocator` (memory.h lines 548-612):
the usage of the "infinite"-limit `MemoryLimit allocator_` it wraps, plus the
configured `bypassed_amount_`. -/
structure SoftQuotaState where
  usage : Nat
  bypassed_amount_ : Nat
deriving DecidableEq

/-- The quota state of the inner `MemoryLimit(SIZE_MAX, allocator)`
(memory.h line 553): a `StaticQuota<false>` with quota `SIZE_MAX`, enforced
(the single-argument `StaticQuota` constructor passes `enforced = true`). -/
def SoftQuotaState.limitQuota (s : SoftQuotaState) : QuotaState :=
  ⟨s.usage, true, szMax⟩

/-- `SoftQuotaBypassingBufferAllocator::Available` (memory.h lines 556-563),
with `allocator_.Available()` unfolded: `MemoryLimit::Available` (memory.h
lines 507-509) forwards to `MediatingBufferAllocator::Available` (memory.h
lines 460-462), `min(delegate->Available(), mediator->Available())`, the
delegate's `Available()` being the abstract `dAvail`. -/
def SoftQuotaBypassingBufferAllocator.Available (dAvail : Nat)
    (s : SoftQuotaState) : Nat :=
  let usage := Quota.GetUsage s.limitQuota
  let available := min dAvail (Quota.Available s.limitQuota)
  if s.bypassed_amount_ > usage then max (s.bypassed_amount_ - usage) available
  else available

/-- `SoftQuotaBypassingBufferAllocator::AdjustMinimal` (memory.h
lines 571-573). -/
def SoftQuotaBypassingBufferAllocator.AdjustMinimal (dAvail : Nat)
    (s : SoftQuotaState) (requested minimal : Nat) : Nat :=
  min requested (max minimal (SoftQuotaBypassingBufferAllocator.Available dAvail s))

/-- `SoftQuotaBypassingBufferAllocator::AllocateInternal` (memory.h
lines 574-587): first attempt with the adjusted minimal, second attempt with
the caller's minimal if the first fails; both go to the wrapped `MemoryLimit`,
i.e. to the mediating allocator over the inner delegate `d`. -/
def SoftQuotaBypassingBufferAllocator.AllocateInternal (d : Delegate)
    (dAvail : Nat) (s : SoftQuotaState) (requested minimal : Nat) :
    Option Nat × SoftQuotaState :=
  let res := MediatingBufferAllocator.AllocateInternal d s.limitQuota requested
      (SoftQuotaBypassingBufferAllocator.AdjustMinimal dAvail s requested minimal)
  match res.1 with
  | some g => (some g, ⟨res.2.usage_, s.bypassed_amount_⟩)
  | none =>
    let res2 := MediatingBufferAllocator.AllocateInternal d res.2 requested minimal
    (res2.1, ⟨res2.2.usage_, s.bypassed_amount_⟩)

/-- `SoftQuotaBypassingBufferAllocator::ReallocateInternal` (memory.h
lines 588-604): same retry shape, with the inner chain's reallocation for the
fixed buffer abstracted as `ra` (its concrete body,
`MediatingBufferAllocator::ReallocateInternal`, lives in memory.cc, which is
not among the sources; the claim concerns only the retry structure around
it). -/
def SoftQuotaBypassingBufferAllocator.ReallocateInternal
    (ra : QuotaState → Nat → Nat → Option Nat × QuotaState) (dAvail : Nat)
    (s : SoftQuotaState) (requested minimal : Nat) :
    Option Nat × SoftQuotaState :=
  let res := ra s.limitQuota requested
      (SoftQuotaBypassingBufferAllocator.AdjustMinimal dAvail s requested minimal)
  match res.1 with
  | some g => (some g, ⟨res.2.usage_, s.bypassed_amount_⟩)
  | none =>
    let res2 := ra res.2 requested minimal
    (res2.1, ⟨res2.2.usage_, s.bypassed_amount_⟩)

/-- Claim C7: with bypass amount `B` over an inner allocator, `Available()`
returns `max(B - usage, inner available)` when `usage < B` and the inner
(wrapped-chain) available otherwise; allocate and reallocate first try the
inflated `minimal' = min(requested, max(minimal, Available()))` and, if that
attempt fails, fall back to a second attempt with the caller's original
`minimal`, returning its result. -/
theorem soft_quota_bypass_retry (d : Delegate)
    (ra : QuotaState → Nat → Nat → Option Nat × QuotaState)
    (dAvail : Nat) (s : SoftQuotaState) (hu : s.usage ≤ szMax) (r m : Nat) :
    (s.usage < s.bypassed_amount_ →
      SoftQuotaBypassingBufferAllocator.Available dAvail s
        = max (s.bypassed_amount_ - s.usage) (min dAvail (szMax - s.usage))) ∧
    (s.bypassed_amount_ ≤ s.usage →
      SoftQuotaBypassingBufferAllocator.Available dAvail s
        = min dAvail (szMax - s.usage)) ∧
    (∀ g, (MediatingBufferAllocator.AllocateInternal d s.limitQuota r
        (min r (max m (SoftQuotaBypassingBufferAllocator.Available dAvail s)))).1
          = some g →
      (SoftQuotaBypassingBufferAllocator.AllocateInternal d dAvail s r m).1
        = some g) ∧
    ((MediatingBufferAllocator.AllocateInternal d s.limitQuota r
        (min r (max m (SoftQuotaBypassingBufferAllocator.Available dAvail s)))).1
          = none →
      (SoftQuotaBypassingBufferAllocator.AllocateInternal d dAvail s r m).1
        = (MediatingBufferAllocator.AllocateInternal d
            (MediatingBufferAllocator.AllocateInternal d s.limitQuota r
              (min r (max m
                (SoftQuotaBypassingBufferAllocator.Available dAvail s)))).2
            r m).1) ∧
    (∀ g, (ra s.limitQuota r
        (min r (max m (SoftQuotaBypassingBufferAllocator.Available dAvail s)))).1
          = some g →
      (SoftQuotaBypassingBufferAllocator.ReallocateInternal ra dAvail s r m).1
        = some g) ∧
    ((ra s.limitQuota r
        (min r (max m (SoftQuotaBypassingBufferAllocator.Available dAvail s)))).1
          = none →
      (SoftQuotaBypassingBufferAllocator.ReallocateInternal ra dAvail s r m).1
        = (ra (ra s.limitQuota r
            (min r (max m
              (SoftQuotaBypassingBufferAllocator.Available dAvail s)))).2
            r m).1) := by
  have hqa : Quota.Available ⟨s.usage, true, szMax⟩ = szMax - s.usage := by
    simp only [Quota.Available]
    split_ifs with h
    · omega
    · rfl
  refine ⟨?_, ?_, ?_, ?_, ?_, ?_⟩
  · intro hb
    simp only [SoftQuotaBypassingBufferAllocator.Available, hqa, Quota.GetUsage,
      SoftQuotaState.limitQuota]
    rw [if_pos hb]
  · intro hb
    simp only [SoftQuotaBypassingBufferAllocator.Available, hqa, Quota.GetUsage,
      SoftQuotaState.limitQuota]
    rw [if_neg (by omega)]
  · intro g h
    simp only [SoftQuotaBypassingBufferAllocator.AllocateInternal,
      SoftQuotaBypassingBufferAllocator.AdjustMinimal, h]
  · intro h
    simp only [SoftQuotaBypassingBufferAllocator.AllocateInternal,
      SoftQuotaBypassingBufferAllocator.AdjustMinimal, h]
  · intro g h
    simp only [SoftQuotaBypassingBufferAllocator.ReallocateInternal,
      SoftQuotaBypassingBufferAllocator.AdjustMinimal, h]
  · intro h
    simp only [SoftQuotaBypassingBufferAllocator.ReallocateInternal,
      SoftQuotaBypassingBufferAllocator.AdjustMinimal, h]

/-- Witness for C7 with the heap delegate, `dAvail = 50`, usage `0`, bypass
amount `20`, request `(10, 1)`: `Available` reads `max 20 (min 50 szMax)` and
a successful first (inflated) attempt is returned as is. -/
theorem soft_quota_bypass_retry_witness :
    (SoftQuotaBypassingBufferAllocator.Available 50 ⟨0, 20⟩
      = max (20 - 0) (min 50 (szMax - 0))) ∧
    (∀ g, (MediatingBufferAllocator.AllocateInternal heapGrant
        (SoftQuotaState.limitQuota ⟨0, 20⟩) 10
        (min 10 (max 1 (SoftQuotaBypassingBufferAllocator.Available 50 ⟨0, 20⟩)))).1
          = some g →
      (SoftQuotaBypassingBufferAllocator.AllocateInternal heapGrant 50 ⟨0, 20⟩ 10 1).1
        = some g) := by
  have h := soft_quota_bypass_retry heapGrant (fun q r m => (some r, q)) 50 ⟨0, 20⟩
      (by decide) 10 1
  exact ⟨h.1 (by decide), h.2.2.1⟩

/-- A `Buffer` (memory.h lines 61-103): the data pointer (modelled as an
address), the size in bytes, and the identity of the allocator that must be
called to free it (`BufferAllocator* const allocator_`). -/
structure Buffer where
  data_ : Nat
  size_ : Nat
  allocator_ : Nat
deriving DecidableEq

/-- `Buffer::Update` (memory.h lines 88-97), called by a successful realloc:
assigns only `data_` and `size_`; `allocator_` is `const` and untouched. -/
def Buffer.Update (b : Buffer) (new_data new_size : Nat) : Buffer :=
  { b with data_ := new_data, size_ := new_size }

/-- Claim C8: a successful reallocation updates only the buffer's data pointer
and size (via `Buffer::Update`); the allocator responsible for freeing the
buffer is fixed at creation and survives any chain of reallocation updates. -/
theorem buffer_update_fixes_allocator (b : Buffer) (nd ns : Nat) :
    (b.Update nd ns).data_ = nd ∧ (b.Update nd ns).size_ = ns ∧
    (b.Update nd ns).allocator_ = b.allocator_ ∧
    (∀ us : List (Nat × Nat),
      (us.foldl (fun c p => c.Update p.1 p.2) b).allocator_ = b.allocator_) := by
  refine ⟨rfl, rfl, rfl, ?_⟩
  intro us
  induction us generalizing b with
  | nil => rfl
  | cons u t ih => exact ih (b.Update u.1 u.2)

/-- The virtual internals of a concrete `BufferAllocator` subclass
(memory.h lines 227-242), abstracted: `AllocateInternal` returns the new
buffer or `none`; `ReallocateInternal` (a `bool` in the code, with the buffer
updated in place on success) returns the updated buffer or `none`. -/
structure BufferAllocatorVt where
  AllocateInternal : Nat → Nat → Option Buffer
  ReallocateInternal : Nat → Nat → Buffer → Option Buffer

/-- `BufferAllocator::BestEffortAllocate` (memory.h lines 127-132): calls
`AllocateInternal(requested, minimal, this)`, then
`LogAllocation(requested, minimal, result)`; the second component records the
arguments of that `LogAllocation` call (its body lives in memory.cc). -/
def BufferAllocator.BestEffortAllocate (vt : BufferAllocatorVt)
    (requested minimal : Nat) : Option Buffer × (Nat × Nat × Option Buffer) :=
  let result := vt.AllocateInternal requested minimal
  (result, (requested, minimal, result))

/-- `BufferAllocator::Allocate` (memory.h lines 136-138):
`BestEffortAllocate(requested, requested)`. -/
def BufferAllocator.Allocate (vt : BufferAllocatorVt) (requested : Nat) :
    Option Buffer × (Nat × Nat × Option Buffer) :=
  BufferAllocator.BestEffortAllocate vt requested requested

/-- `BufferAllocator::BestEffortReallocate` (memory.h lines 158-172): with a
null buffer it calls `AllocateInternal` and logs the result; with a buffer it
calls `ReallocateInternal`, returns the (updated) buffer or null, and logs the
buffer. -/
def BufferAllocator.BestEffortReallocate (vt : BufferAllocatorVt)
    (requested minimal : Nat) (buffer : Option Buffer) :
    Option Buffer × (Nat × Nat × Option Buffer) :=
  match buffer with
  | none =>
    let result := vt.AllocateInternal requested minimal
    (result, (requested, minimal, result))
  | some b =>
    match vt.ReallocateInternal requested minimal b with
    | some b' => (some b', (requested, minimal, some b'))
    | none => (none, (requested, minimal, some b))

/-- Claim C10: for `minimal <= requested`,
`BestEffortReallocate(requested, minimal, null)` performs exactly a fresh
allocation — identical result and identical logging to
`BestEffortAllocate(requested, minimal)` — and `Allocate(requested)` is
identical to `BestEffortAllocate(requested, requested)`, for every allocator
implementation. -/
theorem best_effort_reallocate_null_alloc_equiv (vt : BufferAllocatorVt)
    (requested minimal : Nat) (hmr : minimal ≤ requested) :
    BufferAllocator.BestEffortReallocate vt requested minimal none
      = BufferAllocator.BestEffortAllocate vt requested minimal ∧
    BufferAllocator.Allocate vt requested
      = BufferAllocator.BestEffortAllocate vt requested requested :=
  ⟨rfl, rfl⟩

/-- Witness for C10 at a concrete implementation and request `(5, 3)`. -/
theorem best_effort_reallocate_null_alloc_equiv_witness :
    (3 : Nat) ≤ 5 ∧
    (BufferAllocator.BestEffortReallocate
        ⟨fun r _ => some ⟨0, r, 0⟩, fun _ _ b => some b⟩ 5 3 none
      = BufferAllocator.BestEffortAllocate
        ⟨fun r _ => some ⟨0, r, 0⟩, fun _ _ b => some b⟩ 5 3 ∧
    BufferAllocator.Allocate ⟨fun r _ => some ⟨0, r, 0⟩, fun _ _ b => some b⟩ 5
      = BufferAllocator.BestEffortAllocate
        ⟨fun r _ => some ⟨0, r, 0⟩, fun _ _ b => some b⟩ 5 5) :=
  ⟨by decide,
    best_effort_reallocate_null_alloc_equiv
      ⟨fun r _ => some ⟨0, r, 0⟩, fun _ _ b => some b⟩ 5 3 (by decide)⟩

end Kudu
